import Mathlib

/-!
Verification of the galdr command-line tokenizer (src/src/lib/parser.ts and
the drafts in src/unnamed/part_002, part_003, with the schema types from
src/unnamed/part_001).

Strings of the TypeScript source are embedded as lists of characters
(`JStr`), so that JavaScript string operations (substr, split, startsWith,
replace of an anchored prefix) become plain list operations with the same
semantics.
-/

/-- JavaScript strings, embedded as lists of characters. -/
abbrev JStr := List Char

/-- Convenience: build a `JStr` from a Lean string literal. -/
def js (s : String) : JStr := s.toList

/-- `OptionType` from src/unnamed/part_001 (command-definition). -/
inductive OptionType where
  | file | files | dir | dirs | string | strings | numbers | number | flag | count
deriving DecidableEq, Repr

/-- `CommandOption` from src/unnamed/part_001: the option kind plus its
declared aliases (the metadata fields that the parser never reads are
omitted). -/
structure CommandOption where
  type : OptionType
  aliases : List JStr := []
deriving DecidableEq, Repr

/-- `Command` from src/unnamed/part_001: option definitions keyed by primary
name and sub-commands keyed by invocation name (positionals and description
are never read by the parser). -/
inductive Command where
  | mk (options : List (JStr × CommandOption)) (subCommands : List (JStr × Command))

/-- `cmd.options` accessor. -/
def Command.options : Command → List (JStr × CommandOption)
  | .mk o _ => o

/-- `cmd.subCommands` accessor. -/
def Command.subCommands : Command → List (JStr × Command)
  | .mk _ s => s

/-- `NamedOption` from src/unnamed/part_002: an option definition together
with its primary name (`const namedOpt = { name, ...opt }`). -/
structure NamedOption where
  name : JStr
  type : OptionType
  aliases : List JStr
deriving DecidableEq, Repr

/-- The build-time failure thrown by `addKnownOption` (parser.ts:138,
"Option `alias` has conflicting definitions with types `t1` and `t2`"). -/
inductive ParseError where
  | conflictingOptionDefinition (al : JStr) (t1 t2 : OptionType)
deriving DecidableEq, Repr

/-- `Arg` / `ArgType` from parser.ts: the four parsed-argument events. -/
inductive Arg where
  | command (name : JStr)
  | positional (value : JStr)
  | option (name : JStr) (value : JStr)
  | flag (name : JStr) (value : Bool)
deriving DecidableEq, Repr

/-- JavaScript `s.split(c)` on a single-character separator. -/
def splitOnChar (c : Char) : JStr → List JStr
  | [] => [[]]
  | x :: xs =>
    let r := splitOnChar c xs
    if x = c then [] :: r else (x :: r.headD []) :: r.tail

/-- `bareArg.split("=")` as used by both option parsers. -/
def splitOnEq (s : JStr) : List JStr := splitOnChar '=' s

/-- `eqOther.join("=")`. -/
def joinEq (l : List JStr) : JStr := List.intercalate ['='] l

/-- The characters of the `no-` negation marker. -/
def noMark : JStr := ['n', 'o', '-']

/-- `flagArg` from parser.ts:81: strips one leading `no-` from the name
(the anchored regex replace) and derives the boolean from the absence of the
`no-` marker at the start of the name. -/
def flagArg (name : JStr) : Arg :=
  if noMark.isPrefixOf name then .flag (name.drop 3) false else .flag name true

/-- `isFlagTypeOption` from parser.ts:89. -/
def isFlagTypeOption (t : OptionType) : Bool :=
  t == OptionType.flag || t == OptionType.count

/-- `StringTree.set` / `Map.set`: replace the value under an existing key or
append a new entry (JS map insertion order is preserved on update). -/
def tset (t : List (JStr × NamedOption)) (k : JStr) (v : NamedOption) :
    List (JStr × NamedOption) :=
  match t with
  | [] => [(k, v)]
  | (k', v') :: rest => if k' = k then (k, v) :: rest else (k', v') :: tset rest k v

/-- Exact-key retrieval (`Map.get`, and the exact half of the trie lookup). -/
def tgetExact (t : List (JStr × NamedOption)) (k : JStr) : Option NamedOption :=
  match t with
  | [] => none
  | (k', v) :: rest => if k' = k then some v else tgetExact rest k

/-- Modelled from the spec: `StringTree.get` of the stringtree-js dependency
(not part of the repository sources) — the long-option table "supports
retrieval by exact key and by unambiguous unique prefix".  An exact key wins;
otherwise, if exactly one stored key has the query as a prefix, its value is
returned; an ambiguous or empty prefix match yields nothing.  The
unique-prefix test of src/unnamed/part_000 exercises exactly this behavior. -/
def tget (t : List (JStr × NamedOption)) (k : JStr) : Option NamedOption :=
  match tgetExact t k with
  | some v => some v
  | none =>
    match t.filter (fun p => k.isPrefixOf p.1) with
    | [(_, v)] => some v
    | _ => none

/-- The compiled lookup state built by `addKnownCommand` (part_002's
`ParserState` minus the cursor and output, which are threaded separately). -/
structure Registry where
  knownOptionNames : List JStr
  longOptions : List (JStr × NamedOption)
  shortOptions : List (JStr × NamedOption)
deriving DecidableEq, Repr

/-- `Set.add` on primary option names (insertion order, deduplicated). -/
def addName (l : List JStr) (n : JStr) : List JStr :=
  if n ∈ l then l else l ++ [n]

/-- The alias loop of `addKnownOption` (parser.ts:132-147): single-character
aliases go to the short table with no conflict check (last writer wins);
longer aliases go to the long table, failing when an existing entry under the
same lookup has a different kind. -/
def addAliases (st : Registry) (namedOpt : NamedOption) :
    List JStr → Except ParseError Registry
  | [] => .ok st
  | a :: rest =>
    if a.length = 1 then
      addAliases { st with shortOptions := tset st.shortOptions a namedOpt }
        namedOpt rest
    else
      match tget st.longOptions a with
      | some existing =>
        if existing.type ≠ namedOpt.type then
          .error (.conflictingOptionDefinition a existing.type namedOpt.type)
        else
          addAliases { st with longOptions := tset st.longOptions a namedOpt }
            namedOpt rest
      | none =>
        addAliases { st with longOptions := tset st.longOptions a namedOpt }
          namedOpt rest

/-- `addKnownOption` (parser.ts:127) / `addKnownOptionToState` (part_002:92):
alias set = primary name plus declared aliases; flag-like kinds additionally
get a `no-` variant of every alias longer than one character. -/
def addKnownOption (st : Registry) (name : JStr) (opt : CommandOption) :
    Except ParseError Registry :=
  let aliases := name :: opt.aliases
  let aliases :=
    if isFlagTypeOption opt.type then
      aliases ++ (aliases.filter (fun a => a.length > 1)).map (fun a => noMark ++ a)
    else aliases
  let namedOpt : NamedOption := ⟨name, opt.type, opt.aliases⟩
  addAliases { st with knownOptionNames := addName st.knownOptionNames name }
    namedOpt aliases

mutual

/-- `addKnownCommand` (parser.ts:118): register the node's own options, then
recurse into every sub-command (flat, whole-tree registry). -/
def addKnownCommand (st : Registry) : Command → Except ParseError Registry
  | .mk opts subs => do
    let st ← addOptionList st opts
    addSubCommandList st subs

/-- Registers a node's option list, left to right. -/
def addOptionList (st : Registry) : List (JStr × CommandOption) →
    Except ParseError Registry
  | [] => .ok st
  | (n, o) :: rest => do
    let st ← addKnownOption st n o
    addOptionList st rest

/-- Registers every sub-command of a node, left to right. -/
def addSubCommandList (st : Registry) : List (JStr × Command) →
    Except ParseError Registry
  | [] => .ok st
  | (_, c) :: rest => do
    let st ← addKnownCommand st c
    addSubCommandList st rest

end

/-- Registry construction from the root command (the constructor of
`CommandLineParser`, parser.ts:105-112). -/
def buildRegistry (cmd : Command) : Except ParseError Registry :=
  addKnownCommand ⟨[], [], []⟩ cmd

/-- `hasOwnProperty(subCommands, arg)` followed by `subCommands[arg]`. -/
def lookupSub (subs : List (JStr × Command)) (name : JStr) : Option Command :=
  match subs with
  | [] => none
  | (k, c) :: rest => if k = name then some c else lookupSub rest name

/-- `parseOptionWithPossibleParameter` (parser.ts:230-262).  `idx` is the
cursor position after the option token itself; the returned index reflects
whether the following token was consumed as a value (a `putBack` after the
peek leaves the index unchanged). -/
def parseOptionWithPossibleParameter (name : JStr) (opt : Option NamedOption)
    (args : List JStr) (idx : Nat) : List Arg × Nat :=
  match args.get? idx with
  | some maybeParam =>
    match opt with
    | some o =>
      if isFlagTypeOption o.type then ([flagArg name], idx)
      else ([.option name maybeParam], idx + 1)
    | none =>
      if ['-'].isPrefixOf maybeParam then ([flagArg name], idx)
      else ([.option name maybeParam], idx + 1)
  | none => ([flagArg name], idx)

/-- `parseLongOptionArg` (parser.ts:215-228). -/
def parseLongOptionArg (reg : Registry) (arg : JStr) (args : List JStr)
    (idx : Nat) : List Arg × Nat :=
  let bareArg := arg.drop 2
  let parts := splitOnEq bareArg
  let name := parts.headD []
  match parts.tail with
  | [] => parseOptionWithPossibleParameter name (tget reg.longOptions name) args idx
  | eqOther => ([.option name (joinEq eqOther)], idx)

/-- `parseShortOptionArg` (parser.ts:195-213). -/
def parseShortOptionArg (reg : Registry) (arg : JStr) (args : List JStr)
    (idx : Nat) : List Arg × Nat :=
  let bareArgs := arg.drop 1
  let parts := splitOnEq bareArgs
  let allNames := parts.headD []
  let lastName := allNames.drop (allNames.length - 1)
  let firstNames := allNames.take (allNames.length - 1)
  let flags := firstNames.map (fun c => flagArg [c])
  match parts.tail with
  | [] =>
    let r := parseOptionWithPossibleParameter lastName
      (tgetExact reg.shortOptions lastName) args idx
    (flags ++ r.1, r.2)
  | eqOther => (flags ++ [.option lastName (joinEq eqOther)], idx)

/-- `parseArg` (parser.ts:179-193): classification in priority order —
breakout `--`, bare `-`, long option, short option, sub-command, positional.
Returns the (possibly descended) active command, the emitted events, and the
cursor index after the step; `idx` is the position just after the current
token. -/
def parseArg (reg : Registry) (cmd : Command) (arg : JStr) (args : List JStr)
    (idx : Nat) : Command × List Arg × Nat :=
  if arg = ['-', '-'] then
    (cmd, (args.drop idx).map .positional, args.length)
  else if arg = ['-'] then
    (cmd, [.positional arg], idx)
  else if (['-', '-'] : JStr).isPrefixOf arg then
    let r := parseLongOptionArg reg arg args idx
    (cmd, r.1, r.2)
  else if (['-'] : JStr).isPrefixOf arg then
    let r := parseShortOptionArg reg arg args idx
    (cmd, r.1, r.2)
  else
    match lookupSub cmd.subCommands arg with
    | some sub => (sub, [.command arg], idx)
    | none => (cmd, [.positional arg], idx)

/-- The main loop of `parse` (parser.ts:150-177): while tokens remain,
classify the token at the cursor with the cursor advanced past it.  The fuel
argument is an upper bound on the number of iterations; `args.length` always
suffices because every step advances the index by at least one
(`parseArg_le_idx` below). -/
def parseLoop (reg : Registry) (args : List JStr) :
    Nat → Command → Nat → List Arg → Command × List Arg
  | 0, cmd, _, acc => (cmd, acc)
  | fuel + 1, cmd, idx, acc =>
    match args.get? idx with
    | some arg =>
      let r := parseArg reg cmd arg args (idx + 1)
      parseLoop reg args fuel r.1 r.2.2 (acc ++ r.2.1)
    | none => (cmd, acc)

/-- `parseCommandLine` (parser.ts:280-287) / `parse` (part_002:253): build a
fresh registry from the schema, then run the loop over the tokens. -/
def parseCommandLine (cmd : Command) (args : List JStr) :
    Except ParseError (List Arg) :=
  match buildRegistry cmd with
  | .error e => .error e
  | .ok reg => .ok (parseLoop reg args args.length cmd 0 []).2

/-- `isSingularOpt` (part_002:350): every kind except the four plural ones. -/
def isSingularOpt (t : OptionType) : Bool :=
  match t with
  | .dirs | .files | .numbers | .strings => false
  | _ => true

/-- The names of the option-kind events of a parse result
(`parsed.filter(arg => arg.type === ArgType.option).map(arg => arg.name)`,
part_002:332-336; flag events are not included). -/
def optionEventNames (parsed : List Arg) : List JStr :=
  parsed.filterMap fun a =>
    match a with
    | .option n _ => some n
    | _ => none

/-- Resolution of each passed option name against the registry
(part_002:336-341): single-character names through the short table, longer
names through the long table.  An unresolved name makes the whole
computation fail, as the JavaScript crashes reading `.type` of `undefined`
inside `isSingularOpt`. -/
def resolveOptionNames (reg : Registry) : List JStr → Option (List NamedOption)
  | [] => some []
  | n :: rest =>
    match (if n.length = 1 then tgetExact reg.shortOptions n
           else tget reg.longOptions n) with
    | none => none
    | some o => (resolveOptionNames reg rest).map (o :: ·)

/-- `getOptionsNotUsed` (part_002:330-348): declared primary names minus the
primary names of singular-kind definitions reached by an option event. -/
def getOptionsNotUsed (reg : Registry) (parsed : List Arg) :
    Option (List JStr) :=
  match resolveOptionNames reg (optionEventNames parsed) with
  | none => none
  | some opts =>
    let consumed := (opts.filter (fun o => isSingularOpt o.type)).map (fun o => o.name)
    some (reg.knownOptionNames.filter (fun n => !(consumed.contains n)))

/-- `CompletionSuggestions` (part_002:257-260): the return type
`getCompletionSuggestions` declares but, as written, can never produce. -/
structure CompletionSuggestions where
  words : List JStr
  files : Bool
deriving DecidableEq, Repr

/-- The ways `getCompletionSuggestions` fails: the registry-construction
throw propagated out of `parseResults`; the TypeError raised by reading a
field of `undefined` (in `isSingularOpt` via `getOptionsNotUsed`, or in
`isOptionArg`/`isFlagTypeOption` via `getExpectedParameterType`); and the
ReferenceError raised by the return object's `files: lookingForFiles`
(part_002:291), whose only declaration is commented out (part_002:288). -/
inductive CompletionError where
  | parseError (e : ParseError)
  | typeError
  | referenceError
deriving DecidableEq, Repr

/-- `getExpectedParameterType` (part_002:300-324): if the last raw token is
not the empty placeholder, no parameter is expected (inner `none`);
otherwise look at the last parsed event — the outer `none` models the
TypeError of reading a field of `undefined`, which happens when the parse
produced no events at all (`results[results.length - 1]` is `undefined`) or
when the last option event's name does not resolve against the registry. -/
def getExpectedParameterType (reg : Registry) (args : List JStr)
    (parsed : List Arg) : Option (Option OptionType) :=
  if args.getLast? ≠ some ([] : JStr) then some none
  else
    match parsed.getLast? with
    | none => none
    | some lastParsed =>
      match lastParsed with
      | .option n _ =>
        match (if n.length = 1 then tgetExact reg.shortOptions n
               else tget reg.longOptions n) with
        | none => none
        | some o => if isFlagTypeOption o.type then some none else some (some o.type)
      | _ => some none

/-- The candidate-word array `[...optionsNotUsed, ...commands]` of the
return object (part_002:290): slice off the program name, re-run the
parser, and concatenate the not-yet-used option names with the sub-command
names of the node where parsing ended (options before commands).  This is
the expression `getCompletionSuggestions` evaluates just before its
unconditional failure (see below); `.ok none` is the TypeError path of
`getOptionsNotUsed`. -/
def completionWords (cmd : Command) (args : List JStr) :
    Except ParseError (Option (List JStr)) :=
  match buildRegistry cmd with
  | .error e => .error e
  | .ok reg =>
    let r := parseLoop reg (args.drop 1) (args.drop 1).length cmd 0 []
    match getOptionsNotUsed reg r.2 with
    | none => .ok none
    | some notUsed => .ok (some (notUsed ++ r.1.subCommands.map (fun p => p.1)))

/-- `getCompletionSuggestions` (part_002:270-293) as written: build the
registry and re-run the parser (a conflicting-alias throw propagates),
compute `getOptionsNotUsed` (TypeError if an option event's name does not
resolve), compute `getExpectedParameterType` (TypeError when the parse
produced no events while the last raw token is the empty placeholder), and
then fail unconditionally at the return object, whose `files` field
references the undeclared identifier `lookingForFiles` (part_002:291; the
declaration at part_002:288 is commented out).  The function never returns
a `CompletionSuggestions` value. -/
def getCompletionSuggestions (cmd : Command) (args : List JStr) :
    Except CompletionError CompletionSuggestions :=
  match buildRegistry cmd with
  | .error e => .error (.parseError e)
  | .ok reg =>
    let r := parseLoop reg (args.drop 1) (args.drop 1).length cmd 0 []
    match getOptionsNotUsed reg r.2 with
    | none => .error .typeError
    | some _ =>
      match getExpectedParameterType reg args r.2 with
      | none => .error .typeError
      | some _ => .error .referenceError

/-- The token cursor of `parse` (parser.ts:150-177): the shared index `idx`
plus the `argIdx` captured when the current classification step began
(`const argIdx = idx; idx++`). -/
structure CursorState where
  args : List JStr
  idx : Nat
  argIdx : Nat
deriving DecidableEq, Repr

/-- The `CursorUnderflow` internal-invariant failure ("Internal Error:
parser tried to put back more args than it consumed", parser.ts:162). -/
inductive CursorError where
  | underflow
deriving DecidableEq, Repr

/-- Start of one iteration of the while loop: capture `argIdx` and advance
past the current token. -/
def beginStep (c : CursorState) : CursorState :=
  { c with argIdx := c.idx, idx := c.idx + 1 }

/-- `getNext` (parser.ts:153-157): return the token at the cursor and
advance. -/
def cursorGetNext (c : CursorState) : Option JStr × CursorState :=
  (c.args.get? c.idx, { c with idx := c.idx + 1 })

/-- `putBack` (parser.ts:158-166): roll the cursor back one token while it is
still beyond the step's starting index, else fail. -/
def cursorPutBack (c : CursorState) : Except CursorError CursorState :=
  if c.argIdx < c.idx then .ok { c with idx := c.idx - 1 }
  else .error .underflow

/-- The classification loop as a relation on configurations (active command,
cursor index, accumulated events), mirroring `parseLoop` step for step. -/
inductive ParseRun (reg : Registry) (args : List JStr) :
    Command → Nat → List Arg → Command × List Arg → Prop where
  | done : ∀ cmd idx acc, args.get? idx = none →
      ParseRun reg args cmd idx acc (cmd, acc)
  | step : ∀ cmd idx acc arg out, args.get? idx = some arg →
      ParseRun reg args (parseArg reg cmd arg args (idx + 1)).1
        (parseArg reg cmd arg args (idx + 1)).2.2
        (acc ++ (parseArg reg cmd arg args (idx + 1)).2.1) out →
      ParseRun reg args cmd idx acc out

instance {ε α : Type} [DecidableEq ε] [DecidableEq α] : DecidableEq (Except ε α) :=
  fun a b =>
    match a, b with
    | .ok x, .ok y =>
      if h : x = y then .isTrue (by rw [h]) else
        .isFalse (fun hh => by cases hh; exact h rfl)
    | .error x, .error y =>
      if h : x = y then .isTrue (by rw [h]) else
        .isFalse (fun hh => by cases hh; exact h rfl)
    | .ok _, .error _ => .isFalse (fun hh => by cases hh)
    | .error _, .ok _ => .isFalse (fun hh => by cases hh)

/-- Splitting on a character that does not occur returns the whole string. -/
theorem splitOnChar_not_mem (c : Char) (l : JStr) (h : c ∉ l) :
    splitOnChar c l = [l] := by
  induction l with
  | nil => rfl
  | cons x xs ih =>
    have hx : x ≠ c := fun hc => h (hc ▸ List.mem_cons_self x xs)
    have hxs : c ∉ xs := fun hc => h (List.mem_cons_of_mem x hc)
    simp [splitOnChar, hx, ih hxs]

/-- The possible-parameter decision never moves the cursor backwards. -/
theorem popp_le_idx (name : JStr) (opt : Option NamedOption) (args : List JStr)
    (j : Nat) : j ≤ (parseOptionWithPossibleParameter name opt args j).2 := by
  unfold parseOptionWithPossibleParameter
  cases args.get? j with
  | none => simp
  | some p =>
    cases opt with
    | none => by_cases h : (['-'] : JStr).isPrefixOf p <;> simp [h]
    | some o => by_cases h : isFlagTypeOption o.type <;> simp [h]

/-- Long-option handling never moves the cursor backwards. -/
theorem parseLong_le_idx (reg : Registry) (arg : JStr) (args : List JStr)
    (j : Nat) : j ≤ (parseLongOptionArg reg arg args j).2 := by
  unfold parseLongOptionArg
  dsimp only
  split
  · exact popp_le_idx _ _ args j
  · simp

/-- Short-option handling never moves the cursor backwards. -/
theorem parseShort_le_idx (reg : Registry) (arg : JStr) (args : List JStr)
    (j : Nat) : j ≤ (parseShortOptionArg reg arg args j).2 := by
  unfold parseShortOptionArg
  dsimp only
  split
  · simpa using popp_le_idx _ _ args j
  · simp

/-- One classification step never moves the cursor backwards: called with the
cursor just past the current token, it returns an index at least as large. -/
theorem parseArg_le_idx (reg : Registry) (cmd : Command) (arg : JStr)
    (args : List JStr) (j : Nat) (hj : j ≤ args.length) :
    j ≤ (parseArg reg cmd arg args j).2.2 := by
  unfold parseArg
  by_cases h1 : arg = ['-', '-']
  · simpa [h1] using hj
  · by_cases h2 : arg = ['-']
    · simp [h1, h2]
    · by_cases h3 : (['-', '-'] : JStr).isPrefixOf arg
      · simpa [h1, h2, h3] using parseLong_le_idx reg arg args j
      · by_cases h4 : (['-'] : JStr).isPrefixOf arg
        · simpa [h1, h2, h3, h4] using parseShort_le_idx reg arg args j
        · cases h5 : lookupSub cmd.subCommands arg <;> simp [h1, h2, h3, h4, h5]

/-- With fuel at least the number of unread tokens, the executable loop is a
run of the classification relation. -/
theorem parseLoop_run (fuel : Nat) (reg : Registry) (args : List JStr)
    (cmd : Command) (idx : Nat) (acc : List Arg)
    (hfuel : args.length ≤ idx + fuel) :
    ParseRun reg args cmd idx acc (parseLoop reg args fuel cmd idx acc) := by
  induction fuel generalizing cmd idx acc with
  | zero =>
    have hn : args.get? idx = none := by
      rw [List.get?_eq_none]
      omega
    exact ParseRun.done cmd idx acc hn
  | succ f ih =>
    cases hg : args.get? idx with
    | none =>
      simp only [parseLoop]
      rw [hg]
      exact ParseRun.done cmd idx acc hg
    | some arg =>
      have hidx : idx < args.length := by
        by_contra hc
        rw [List.get?_eq_none.2 (by omega)] at hg
        cases hg
      have hadv : idx + 1 ≤ (parseArg reg cmd arg args (idx + 1)).2.2 :=
        parseArg_le_idx reg cmd arg args (idx + 1) (by omega)
      have hrest := ih (parseArg reg cmd arg args (idx + 1)).1
        (parseArg reg cmd arg args (idx + 1)).2.2
        (acc ++ (parseArg reg cmd arg args (idx + 1)).2.1) (by omega)
      have hstep := ParseRun.step cmd idx acc arg _ hg hrest
      simp only [parseLoop]
      rw [hg]
      exact hstep

/-- The classification relation is deterministic: two runs from the same
configuration end with the same result. -/
theorem parseRun_det {reg : Registry} {args : List JStr} {cmd : Command}
    {idx : Nat} {acc : List Arg} {out₁ out₂ : Command × List Arg}
    (h1 : ParseRun reg args cmd idx acc out₁)
    (h2 : ParseRun reg args cmd idx acc out₂) : out₁ = out₂ := by
  induction h1 generalizing out₂ with
  | done cmd idx acc hn =>
    cases h2 with
    | done _ _ _ _ => rfl
    | step _ _ _ arg out hs _ => rw [hn] at hs; cases hs
  | step cmd idx acc arg out hs _ ih =>
    cases h2 with
    | done _ _ _ hn => rw [hn] at hs; cases hs
    | step _ _ _ arg' out' hs' hrun' =>
      rw [hs] at hs'
      injection hs' with he
      subst he
      exact ih hrun'

/-- Whether registry construction succeeded. -/
def isOkE : Except ParseError Registry → Bool
  | .ok _ => true
  | .error _ => false

/-- C1 schema: `food` a flag, `foobar` string-valued (the unique-prefix test
of src/unnamed/part_000). -/
def cmdC1 : Command :=
  .mk [(js "food", ⟨.flag, []⟩), (js "foobar", ⟨.string, []⟩)] []

/-- The registry compiled from `cmdC1`. -/
def regC1 : Registry :=
  ⟨[js "food", js "foobar"],
   [(js "food", ⟨js "food", .flag, []⟩),
    (js "no-food", ⟨js "food", .flag, []⟩),
    (js "foobar", ⟨js "foobar", .string, []⟩)],
   []⟩

/-- C1: with `food` (flag) and `foobar` (string) declared, the long-option
table resolves the abbreviation `foob` uniquely to the `foobar` definition,
and parsing `--foob v` consumes `v` as its value and emits an option event,
for every following token `v`. -/
theorem c1_unique_prefix_long_option :
    buildRegistry cmdC1 = .ok regC1 ∧
    tget regC1.longOptions (js "foob") = some ⟨js "foobar", OptionType.string, []⟩ ∧
    ∀ v, parseCommandLine cmdC1 [js "--foob", v] = .ok [.option (js "foob") v] :=
  ⟨rfl, rfl, fun _ => rfl⟩

/-- C2 counterexample schema: one string-valued option `xx`. -/
def cmdC2 : Command := .mk [(js "xx", ⟨.string, []⟩)] []

/-- C2 is false as stated: in `--xx -- -y` the first `--` is consumed as the
value of the known string option `xx`, so the token `-y` positioned after the
first `--` is classified as a short option and emitted as a flag event, not
as a positional. -/
theorem c2_counterexample :
    parseCommandLine cmdC2 [js "--xx", js "--", js "-y"] =
      .ok [.option (js "xx") (js "--"), .flag (js "y") true] ∧
    Arg.positional (js "-y") ∉
      [Arg.option (js "xx") (js "--"), Arg.flag (js "y") true] :=
  ⟨rfl, by decide⟩

/-- C2 amended: when the classification loop reaches `--` as the current
token (rather than consuming it as an option's value), every remaining token
is emitted as a positional verbatim, in order, and the `--` marker itself is
not emitted. -/
theorem c2_breakout_amended (reg : Registry) (args : List JStr) (cmd : Command)
    (idx : Nat) (acc : List Arg) (fuel : Nat)
    (h : args.get? idx = some ['-', '-']) :
    parseLoop reg args (fuel + 1) cmd idx acc =
      (cmd, acc ++ (args.drop (idx + 1)).map Arg.positional) := by
  have hbreak : parseArg reg cmd ['-', '-'] args (idx + 1) =
      (cmd, (args.drop (idx + 1)).map Arg.positional, args.length) := rfl
  have h1 : parseLoop reg args (fuel + 1) cmd idx acc =
      parseLoop reg args fuel cmd args.length
        (acc ++ (args.drop (idx + 1)).map Arg.positional) := by
    show (match args.get? idx with
          | some arg =>
            parseLoop reg args fuel (parseArg reg cmd arg args (idx + 1)).1
              (parseArg reg cmd arg args (idx + 1)).2.2
              (acc ++ (parseArg reg cmd arg args (idx + 1)).2.1)
          | none => (cmd, acc)) = _
    rw [h]
    dsimp only
    rw [hbreak]
  rw [h1]
  cases fuel with
  | zero => rfl
  | succ f =>
    show (match args.get? args.length with
          | some arg =>
            parseLoop reg args f
              (parseArg reg cmd arg args (args.length + 1)).1
              (parseArg reg cmd arg args (args.length + 1)).2.2
              ((acc ++ (args.drop (idx + 1)).map Arg.positional) ++
                (parseArg reg cmd arg args (args.length + 1)).2.1)
          | none => (cmd, acc ++ (args.drop (idx + 1)).map Arg.positional)) = _
    rw [List.get?_eq_none.2 (le_refl _)]

/-- Witness for C2's amended theorem at a concrete input. -/
theorem c2_breakout_witness :
    parseLoop ⟨[], [], []⟩ [js "--", js "-y"] 2 (.mk [] []) 0 [] =
      (Command.mk [] [], [Arg.positional (js "-y")]) := by
  have h := c2_breakout_amended ⟨[], [], []⟩ [js "--", js "-y"] (.mk [] []) 0 [] 1 rfl
  simpa using h

/-- Two options with primary names `pp`, `qq` sharing the multi-character
alias `ab`. -/
def conflictSchema (t1 t2 : OptionType) : Command :=
  .mk [(js "pp", ⟨t1, [js "ab"]⟩), (js "qq", ⟨t2, [js "ab"]⟩)] []

/-- Two options with primary names `p`, `q` sharing the single-character
alias `a`. -/
def shortConflictSchema (t1 t2 : OptionType) : Command :=
  .mk [(js "p", ⟨t1, [js "a"]⟩), (js "q", ⟨t2, [js "a"]⟩)] []

/-- C3 is false as stated for single-character aliases: `p` (flag) and `q`
(string) both declare the alias `a` with different kinds, yet registry
construction succeeds — the short table takes the last writer with no
conflict check. -/
theorem c3_counterexample :
    buildRegistry (shortConflictSchema OptionType.flag OptionType.string) =
      .ok ⟨[js "p", js "q"],
           [],
           [(js "p", ⟨js "p", .flag, [js "a"]⟩),
            (js "a", ⟨js "q", .string, [js "a"]⟩),
            (js "q", ⟨js "q", .string, [js "a"]⟩)]⟩ := rfl

/-- C3 amended: re-registering a multi-character alias with a different kind
fails at registry-construction time with the conflicting-definition error
(surfaced from the parse entry point before any token is processed), while
re-registering the identical kind succeeds, and single-character aliases are
re-registered with no conflict check at all (last writer wins). -/
theorem c3_conflicting_alias_amended (t1 t2 : OptionType) :
    (t1 ≠ t2 →
      buildRegistry (conflictSchema t1 t2) =
        .error (.conflictingOptionDefinition (js "ab") t1 t2) ∧
      (∀ args, parseCommandLine (conflictSchema t1 t2) args =
        .error (.conflictingOptionDefinition (js "ab") t1 t2)) ∧
      isOkE (buildRegistry (shortConflictSchema t1 t2)) = true) ∧
    isOkE (buildRegistry (conflictSchema t1 t1)) = true := by
  cases t1 <;> cases t2 <;>
    first
      | exact ⟨fun h => absurd rfl h, rfl⟩
      | exact ⟨fun _ => ⟨rfl, fun _ => rfl, rfl⟩, rfl⟩

/-- Witness for C3's amended theorem at a concrete kind pair. -/
theorem c3_conflicting_alias_witness :
    buildRegistry (conflictSchema OptionType.flag OptionType.string) =
      .error (.conflictingOptionDefinition (js "ab") OptionType.flag OptionType.string) ∧
    isOkE (buildRegistry (conflictSchema OptionType.flag OptionType.flag)) = true := by
  have h := c3_conflicting_alias_amended OptionType.flag OptionType.string
  exact ⟨(h.1 (by decide)).1, h.2⟩

/-- Parsing a lone `--x` token (no `=`): with no following token to consume,
the possible-parameter decision emits `flagArg` of the bare name, whatever
the registry says. -/
theorem parse_single_long_token (cmd : Command) (reg : Registry) (x : JStr)
    (hbuild : buildRegistry cmd = .ok reg) (hx : x ≠ []) (heq : '=' ∉ x) :
    parseCommandLine cmd [('-' :: '-' :: x)] = .ok [flagArg x] := by
  have hsplit : splitOnEq x = [x] := splitOnChar_not_mem '=' x heq
  have hne2 : ('-' :: '-' :: x : JStr) ≠ ['-', '-'] := by simp [hx]
  have hne1 : ('-' :: '-' :: x : JStr) ≠ ['-'] := by simp
  have hpre : (['-', '-'] : JStr).isPrefixOf ('-' :: '-' :: x) = true := by
    simp [List.isPrefixOf]
  have hlong : parseLongOptionArg reg ('-' :: '-' :: x) [('-' :: '-' :: x)] 1 =
      ([flagArg x], 1) := by
    unfold parseLongOptionArg
    dsimp only
    rw [show splitOnEq (List.drop 2 ('-' :: '-' :: x)) = [x] from hsplit]
    rfl
  have hstep : parseArg reg cmd ('-' :: '-' :: x) [('-' :: '-' :: x)] 1 =
      (cmd, [flagArg x], 1) := by
    unfold parseArg
    rw [if_neg hne2, if_neg hne1, if_pos hpre, hlong]
  unfold parseCommandLine
  rw [hbuild]
  have hloop : parseLoop reg [('-' :: '-' :: x)] 1 cmd 0 [] =
      (cmd, [flagArg x]) := by
    show parseLoop reg [('-' :: '-' :: x)] 0
        (parseArg reg cmd ('-' :: '-' :: x) [('-' :: '-' :: x)] 1).1
        (parseArg reg cmd ('-' :: '-' :: x) [('-' :: '-' :: x)] 1).2.2
        ([] ++ (parseArg reg cmd ('-' :: '-' :: x) [('-' :: '-' :: x)] 1).2.1) =
      (cmd, [flagArg x])
    rw [hstep]
    rfl
  show Except.ok (parseLoop reg [('-' :: '-' :: x)] 1 cmd 0 []).2 = _
  rw [hloop]

/-- Parsing a lone `-c` token for a single character `c` (not `-` and not
`=`): the bare name is the one-character string, the whole cluster. -/
theorem parse_single_short_token (cmd : Command) (reg : Registry) (c : Char)
    (hbuild : buildRegistry cmd = .ok reg) (hc1 : c ≠ '-') (hc2 : c ≠ '=') :
    parseCommandLine cmd [['-', c]] = .ok [flagArg [c]] := by
  have hbeq : ('-' == c) = false := beq_eq_false_iff_ne.2 (Ne.symm hc1)
  have hne2 : (['-', c] : JStr) ≠ ['-', '-'] := by simp [hc1]
  have hne1 : (['-', c] : JStr) ≠ ['-'] := by simp
  have hpre2 : (['-', '-'] : JStr).isPrefixOf ['-', c] = false := by
    simp [List.isPrefixOf, hbeq]
  have hpre1 : (['-'] : JStr).isPrefixOf ['-', c] = true := by
    simp [List.isPrefixOf]
  have hsplit : splitOnEq ((['-', c] : JStr).drop 1) = [[c]] := by
    simp [splitOnEq, splitOnChar, hc2]
  have hshort : parseShortOptionArg reg ['-', c] [['-', c]] 1 =
      ([flagArg [c]], 1) := by
    unfold parseShortOptionArg
    dsimp only
    rw [hsplit]
    rfl
  have hstep : parseArg reg cmd ['-', c] [['-', c]] 1 =
      (cmd, [flagArg [c]], 1) := by
    unfold parseArg
    rw [if_neg hne2, if_neg hne1, hpre2, hpre1]
    simp [hshort]
  unfold parseCommandLine
  rw [hbuild]
  have hloop : parseLoop reg [['-', c]] 1 cmd 0 [] = (cmd, [flagArg [c]]) := by
    show parseLoop reg [['-', c]] 0
        (parseArg reg cmd ['-', c] [['-', c]] 1).1
        (parseArg reg cmd ['-', c] [['-', c]] 1).2.2
        ([] ++ (parseArg reg cmd ['-', c] [['-', c]] 1).2.1) =
      (cmd, [flagArg [c]])
    rw [hstep]
    rfl
  show Except.ok (parseLoop reg [['-', c]] 1 cmd 0 []).2 = _
  rw [hloop]

/-- Registering aliases that are all single characters touches only the
short table and cannot fail. -/
theorem addAliases_short_only (st : Registry) (nopt : NamedOption)
    (l : List JStr) (h : ∀ a ∈ l, a.length = 1) :
    ∃ st', addAliases st nopt l = .ok st' ∧ st'.longOptions = st.longOptions := by
  induction l generalizing st with
  | nil => exact ⟨st, rfl, rfl⟩
  | cons a rest ih =>
    have ha : a.length = 1 := h a (List.mem_cons_self a rest)
    have hrest : ∀ b ∈ rest, b.length = 1 := fun b hb => h b (List.mem_cons_of_mem a hb)
    obtain ⟨st', h1, h2⟩ :=
      ih { st with shortOptions := tset st.shortOptions a nopt } hrest
    refine ⟨st', ?_, h2⟩
    unfold addAliases
    rw [if_pos ha]
    exact h1

/-- C4 counterexample schema: a flag option whose primary name itself begins
with `no-`. -/
def cmdC4x : Command := .mk [(js "no-verbose", ⟨.flag, []⟩)] []

/-- C4 is false as stated: for the flag-kind option with multi-character
name `no-verbose`, parsing `--no-verbose` emits a flag named `verbose` with
value `false` — the anchored `no-` strip applies to the primary name itself
— instead of a flag named `no-verbose` with value `true`. -/
theorem c4_counterexample :
    parseCommandLine cmdC4x [js "--no-verbose"] = .ok [.flag (js "verbose") false] ∧
    Arg.flag (js "verbose") false ≠ Arg.flag (js "no-verbose") true :=
  ⟨rfl, by decide⟩

/-- C4 amended: for a flag-kind option with multi-character name `x` that
does not itself begin with `no-`, `--x` emits flag `x` true and `--no-x`
emits flag `x` false; moreover a known flag-kind long option never consumes
a following token, an option whose aliases are all single characters never
receives a negated variant (the long table is untouched), and a
single-character short option name is never subjected to the negation
convention (`-c` always emits flag `c` true). -/
theorem c4_flag_negation_amended (cmd : Command) (reg : Registry) (x : JStr)
    (o : NamedOption)
    (hbuild : buildRegistry cmd = .ok reg)
    (hx : x ≠ [])
    (heq : '=' ∉ x)
    (hno : noMark.isPrefixOf x = false)
    (hopt : tget reg.longOptions x = some o)
    (hflag : isFlagTypeOption o.type = true) :
    parseCommandLine cmd [('-' :: '-' :: x)] = .ok [.flag x true] ∧
    parseCommandLine cmd [('-' :: '-' :: 'n' :: 'o' :: '-' :: x)] =
      .ok [.flag x false] ∧
    (∀ args idx, (parseLongOptionArg reg ('-' :: '-' :: x) args idx).1 =
      [.flag x true]) ∧
    (∀ st nm op, nm.length = 1 → (∀ a ∈ op.aliases, a.length = 1) →
      ∃ st', addKnownOption st nm op = .ok st' ∧
        st'.longOptions = st.longOptions) ∧
    (∀ c : Char, c ≠ '-' → c ≠ '=' →
      parseCommandLine cmd [['-', c]] = .ok [.flag [c] true]) := by
  have hflagArg : flagArg x = .flag x true := by simp [flagArg, hno]
  refine ⟨?_, ?_, ?_, ?_, ?_⟩
  · rw [parse_single_long_token cmd reg x hbuild hx heq, hflagArg]
  · have hx' : ('n' :: 'o' :: '-' :: x : JStr) ≠ [] := by simp
    have heq' : '=' ∉ ('n' :: 'o' :: '-' :: x : JStr) := by simp [heq]
    rw [parse_single_long_token cmd reg ('n' :: 'o' :: '-' :: x) hbuild hx' heq']
    simp [flagArg, noMark, List.isPrefixOf]
  · intro args idx
    have hsplit : splitOnEq x = [x] := splitOnChar_not_mem '=' x heq
    have hname : parseLongOptionArg reg ('-' :: '-' :: x) args idx =
        parseOptionWithPossibleParameter x (tget reg.longOptions x) args idx := by
      unfold parseLongOptionArg
      dsimp only
      rw [show splitOnEq (List.drop 2 ('-' :: '-' :: x)) = [x] from hsplit]
      rfl
    rw [hname, hopt]
    unfold parseOptionWithPossibleParameter
    cases hg : args.get? idx with
    | none => simp [hflagArg]
    | some p => simp [hflag, hflagArg]
  · intro st nm op hnm hal
    have hbase : ∀ a ∈ (nm :: op.aliases), a.length = 1 := by
      intro a ha
      rcases List.mem_cons.1 ha with h | h
      · rw [h]; exact hnm
      · exact hal a h
    have hfilt : (nm :: op.aliases).filter (fun a => a.length > 1) = [] := by
      rw [List.filter_eq_nil_iff]
      intro a ha
      simp [hbase a ha]
    have hall : ∀ a ∈ (if isFlagTypeOption op.type then
        (nm :: op.aliases) ++
          ((nm :: op.aliases).filter (fun a => a.length > 1)).map (fun a => noMark ++ a)
      else nm :: op.aliases), a.length = 1 := by
      cases hf : isFlagTypeOption op.type with
      | false => simpa [hf] using hbase
      | true => simpa [hf, hfilt] using hbase
    obtain ⟨st', h1, h2⟩ := addAliases_short_only
      { st with knownOptionNames := addName st.knownOptionNames nm }
      ⟨nm, op.type, op.aliases⟩ _ hall
    exact ⟨st', h1, h2⟩
  · intro c hc1 hc2
    rw [parse_single_short_token cmd reg c hbuild hc1 hc2]
    simp [flagArg, noMark, List.isPrefixOf]

/-- C4 witness schema: the flag option `verbose`. -/
def cmd4w : Command := .mk [(js "verbose", ⟨.flag, []⟩)] []

/-- The registry compiled from `cmd4w`. -/
def reg4w : Registry :=
  ⟨[js "verbose"],
   [(js "verbose", ⟨js "verbose", .flag, []⟩),
    (js "no-verbose", ⟨js "verbose", .flag, []⟩)],
   []⟩

/-- Witness for C4's amended theorem at the flag option `verbose`. -/
theorem c4_flag_negation_witness :
    parseCommandLine cmd4w [js "--verbose"] = .ok [.flag (js "verbose") true] ∧
    parseCommandLine cmd4w [js "--no-verbose"] =
      .ok [.flag (js "verbose") false] := by
  have h := c4_flag_negation_amended cmd4w reg4w (js "verbose")
    ⟨js "verbose", .flag, []⟩ rfl (by decide) (by decide) (by decide) rfl rfl
  exact ⟨h.1, h.2.1⟩

/-- C5 schema: short flags `a`, `b` and string-valued short option `c`. -/
def cmdC5 : Command :=
  .mk [(js "a", ⟨.flag, []⟩), (js "b", ⟨.flag, []⟩), (js "c", ⟨.string, []⟩)] []

/-- C5: the cluster `-abc` followed by any token `X` yields exactly
flag(a,true), flag(b,true), option(c,X) in that order; and in general, for a
cluster without `=`, every character but the last becomes an independent
flag event and the last character goes through the possible-parameter
resolution against the short table. -/
theorem c5_bundled_short_options :
    (∀ X, parseCommandLine cmdC5 [js "-abc", X] =
      .ok [.flag (js "a") true, .flag (js "b") true, .option (js "c") X]) ∧
    (∀ (reg : Registry) (s : JStr) (args : List JStr) (idx : Nat), '=' ∉ s →
      parseShortOptionArg reg ('-' :: s) args idx =
        ((s.take (s.length - 1)).map (fun c => flagArg [c]) ++
          (parseOptionWithPossibleParameter (s.drop (s.length - 1))
            (tgetExact reg.shortOptions (s.drop (s.length - 1))) args idx).1,
         (parseOptionWithPossibleParameter (s.drop (s.length - 1))
            (tgetExact reg.shortOptions (s.drop (s.length - 1))) args idx).2)) := by
  constructor
  · intro X
    rfl
  · intro reg s args idx h
    have hsplit : splitOnEq s = [s] := splitOnChar_not_mem '=' s h
    unfold parseShortOptionArg
    dsimp only
    rw [show splitOnEq (List.drop 1 ('-' :: s)) = [s] from hsplit]
    rfl

/-- Witness for C5 at `-abc X` and at the cluster `-ab` with an empty
registry and no following token. -/
theorem c5_bundled_short_options_witness :
    parseCommandLine cmdC5 [js "-abc", js "X"] =
      .ok [.flag (js "a") true, .flag (js "b") true, .option (js "c") (js "X")] ∧
    parseShortOptionArg ⟨[], [], []⟩ ('-' :: js "ab") [] 0 =
      ([.flag (js "a") true, .flag (js "b") true], 0) := by
  refine ⟨c5_bundled_short_options.1 (js "X"), ?_⟩
  have h := c5_bundled_short_options.2 ⟨[], [], []⟩ (js "ab") [] 0 (by decide)
  rw [h]
  rfl

/-- C6 counterexample schema: option with primary name `aa` and declared
alias `opt4`. -/
def cmdC6 : Command := .mk [(js "aa", ⟨.flag, [js "opt4"]⟩)] []

/-- C6 is false as stated: invoking the option via its alias `opt4` emits an
event named `opt4` (the alias as typed), not the canonical primary name
`aa` — exactly what the repository's own test expects. -/
theorem c6_counterexample :
    parseCommandLine cmdC6 [js "--opt4"] = .ok [.flag (js "opt4") true] ∧
    (js "opt4" : JStr) ≠ js "aa" :=
  ⟨rfl, by decide⟩

/-- C6 amended: the emitted event always carries the name exactly as typed
on the command line (with only the `no-` strip of `flagArg` applied for flag
events), never the canonical primary name of the resolved definition: for
any registry, a `--a` token without `=` produces either `flagArg a` or an
option event named `a`. -/
theorem c6_typed_name_amended :
    (∀ (reg : Registry) (a : JStr) (args : List JStr) (idx : Nat), '=' ∉ a →
      (parseLongOptionArg reg ('-' :: '-' :: a) args idx).1 = [flagArg a] ∨
      ∃ v, (parseLongOptionArg reg ('-' :: '-' :: a) args idx).1 =
        [Arg.option a v]) ∧
    parseCommandLine cmdC6 [js "--opt4"] = .ok [.flag (js "opt4") true] := by
  constructor
  · intro reg a args idx h
    have hsplit : splitOnEq a = [a] := splitOnChar_not_mem '=' a h
    have hname : parseLongOptionArg reg ('-' :: '-' :: a) args idx =
        parseOptionWithPossibleParameter a (tget reg.longOptions a) args idx := by
      unfold parseLongOptionArg
      dsimp only
      rw [show splitOnEq (List.drop 2 ('-' :: '-' :: a)) = [a] from hsplit]
      rfl
    rw [hname]
    unfold parseOptionWithPossibleParameter
    cases hg : args.get? idx with
    | none => exact Or.inl rfl
    | some p =>
      cases ho : tget reg.longOptions a with
      | none =>
        by_cases hp : (['-'] : JStr).isPrefixOf p = true
        · exact Or.inl (by simp [hp])
        · exact Or.inr ⟨p, by simp [hp]⟩
      | some o =>
        by_cases hf : isFlagTypeOption o.type = true
        · exact Or.inl (by simp [hf])
        · exact Or.inr ⟨p, by simp [hf]⟩
  · rfl

/-- Witness for C6's amended theorem at the unknown long option `zz`. -/
theorem c6_typed_name_witness :
    (parseLongOptionArg ⟨[], [], []⟩ ('-' :: '-' :: js "zz") [] 0).1 =
      [flagArg (js "zz")] ∨
    ∃ v, (parseLongOptionArg ⟨[], [], []⟩ ('-' :: '-' :: js "zz") [] 0).1 =
      [Arg.option (js "zz") v] :=
  c6_typed_name_amended.1 ⟨[], [], []⟩ (js "zz") [] 0 (by decide)

/-- C7 is false as stated: starting a step at index 0 of a two-token input,
peeking once (`getNext`) and putting back once leaves the cursor at index 1;
the claim says a second `putBack` in the same step must raise
`CursorUnderflow`, but the guard `idx > argIdx` still holds (1 > 0) and the
second call succeeds, rolling the cursor back past the step's own token. -/
theorem c7_counterexample :
    beginStep ⟨[js "a", js "b"], 0, 0⟩ = ⟨[js "a", js "b"], 1, 0⟩ ∧
    cursorGetNext ⟨[js "a", js "b"], 1, 0⟩ =
      (some (js "b"), ⟨[js "a", js "b"], 2, 0⟩) ∧
    cursorPutBack ⟨[js "a", js "b"], 2, 0⟩ = .ok ⟨[js "a", js "b"], 1, 0⟩ ∧
    cursorPutBack ⟨[js "a", js "b"], 1, 0⟩ = .ok ⟨[js "a", js "b"], 0, 0⟩ :=
  ⟨rfl, rfl, rfl, rfl⟩

/-- C7 amended: within one classification step begun at index `i`, one
`putBack` after a peek succeeds and leaves the peeked token unconsumed; a
second `putBack` in the same step also succeeds (rolling back the step's own
token, consistent with the error message "more args than it consumed");
only once the index has returned to the step's start index does `putBack`
raise `CursorUnderflow`. -/
theorem c7_cursor_putback_amended (args : List JStr) (i a0 : Nat) :
    beginStep ⟨args, i, a0⟩ = ⟨args, i + 1, i⟩ ∧
    cursorGetNext ⟨args, i + 1, i⟩ = (args.get? (i + 1), ⟨args, i + 2, i⟩) ∧
    cursorPutBack ⟨args, i + 2, i⟩ = .ok ⟨args, i + 1, i⟩ ∧
    cursorPutBack ⟨args, i + 1, i⟩ = .ok ⟨args, i, i⟩ ∧
    cursorPutBack ⟨args, i, i⟩ = .error .underflow := by
  refine ⟨rfl, rfl, ?_, ?_, ?_⟩
  · unfold cursorPutBack
    dsimp only
    rw [if_pos (by omega)]
    rfl
  · unfold cursorPutBack
    dsimp only
    rw [if_pos (by omega)]
    rfl
  · unfold cursorPutBack
    dsimp only
    rw [if_neg (by omega)]

/-- C8 counterexample schema: one flag option `verbose`, no sub-commands. -/
def cmdC8 : Command := .mk [(js "verbose", ⟨.flag, []⟩)] []

/-- The registry compiled from `cmdC8`. -/
def regC8 : Registry :=
  ⟨[js "verbose"],
   [(js "verbose", ⟨js "verbose", .flag, []⟩),
    (js "no-verbose", ⟨js "verbose", .flag, []⟩)],
   []⟩

/-- C8 is false as stated, twice over.  First, `getCompletionSuggestions`
never returns candidate words at all: on this input it reaches the return
object and fails with the ReferenceError on the undeclared
`lookingForFiles`.  Second, even the words array it computes just before
failing disagrees with the claim: the sliced tokens parse to a flag event
for the singular flag-kind option `verbose` and `cmdC8` has no
sub-commands, so the claimed candidate set is empty — yet the computed
array still offers `verbose`, because `getOptionsNotUsed` filters only
option-kind events and flag events never mark consumption. -/
theorem c8_counterexample :
    parseCommandLine cmdC8 [js "--verbose", js ""] =
      .ok [.flag (js "verbose") true, .positional (js "")] ∧
    getCompletionSuggestions cmdC8 [js "prog", js "--verbose", js ""] =
      .error CompletionError.referenceError ∧
    completionWords cmdC8 [js "prog", js "--verbose", js ""] =
      .ok (some [js "verbose"]) :=
  ⟨rfl, rfl, rfl⟩

/-- C8 amended-scenario schema: flag `verbose`, singular string `out`,
plural `many`, and one sub-command `sub`. -/
def cmdC8b : Command :=
  .mk [(js "verbose", ⟨.flag, []⟩), (js "out", ⟨.string, []⟩),
       (js "many", ⟨.strings, []⟩)]
      [(js "sub", .mk [] [])]

/-- C8 amended: `getCompletionSuggestions` as written never returns a
result — once the registry builds and the not-used options compute, it
fails with the ReferenceError of the undeclared `lookingForFiles` (or a
TypeError from `getExpectedParameterType` in the empty-parse edge case).
The candidate-words array it evaluates just before failing consists of the
declared option primary names not yet consumed by a parsed *option*-kind
event — flag events never mark consumption, so a parse with no option
events leaves every declared primary name offered, singular option events
remove their definition's primary name, and plural-kind options stay
offered — followed by the sub-command names of the node where parsing
ended, options before commands. -/
theorem c8_completion_amended :
    (∀ (cmd : Command) (args : List JStr) (r : CompletionSuggestions),
      getCompletionSuggestions cmd args ≠ .ok r) ∧
    (∀ (cmd : Command) (args : List JStr) (reg : Registry) (w : List JStr),
      buildRegistry cmd = .ok reg →
      completionWords cmd args = .ok (some w) →
      getExpectedParameterType reg args
        (parseLoop reg (args.drop 1) (args.drop 1).length cmd 0 []).2 ≠ none →
      getCompletionSuggestions cmd args = .error .referenceError) ∧
    (∀ (reg : Registry) (parsed : List Arg), optionEventNames parsed = [] →
      getOptionsNotUsed reg parsed = some reg.knownOptionNames) ∧
    completionWords cmdC8b
      [js "prog", js "--verbose", js "--out", js "f", js "--many", js "m", js ""] =
      .ok (some [js "verbose", js "many", js "sub"]) := by
  refine ⟨?_, ?_, ?_, rfl⟩
  · intro cmd args r
    unfold getCompletionSuggestions
    cases h1 : buildRegistry cmd with
    | error e => simp
    | ok reg =>
      dsimp only
      cases h2 : getOptionsNotUsed reg
          (parseLoop reg (args.drop 1) (args.drop 1).length cmd 0 []).2 with
      | none => simp [h2]
      | some nu =>
        simp only [h2]
        cases h3 : getExpectedParameterType reg args
            (parseLoop reg (args.drop 1) (args.drop 1).length cmd 0 []).2 with
        | none => simp [h3]
        | some t => simp [h3]
  · intro cmd args reg w hbuild hwords hexp
    unfold completionWords at hwords
    rw [hbuild] at hwords
    unfold getCompletionSuggestions
    rw [hbuild]
    simp only [List.drop_one, List.length_tail] at hwords hexp ⊢
    cases h2 : getOptionsNotUsed reg
        (parseLoop reg args.tail (args.length - 1) cmd 0 []).2 with
    | none => simp [h2] at hwords
    | some nu =>
      simp only [h2]
      cases h3 : getExpectedParameterType reg args
          (parseLoop reg args.tail (args.length - 1) cmd 0 []).2 with
      | none => exact absurd h3 hexp
      | some t => simp [h3]
  · intro reg parsed h
    unfold getOptionsNotUsed
    rw [h]
    simp [resolveOptionNames]

/-- Witness for C8's amended theorem: on a concrete schema and token list
the function reaches the ReferenceError, it never produces a result, and a
parse consisting of a single flag event leaves the declared name offered. -/
theorem c8_completion_witness :
    getCompletionSuggestions cmdC8 [js "prog", js "--verbose", js ""] =
      .error CompletionError.referenceError ∧
    getCompletionSuggestions cmdC8b [js "prog"] ≠ .ok ⟨[], false⟩ ∧
    getOptionsNotUsed ⟨[js "z"], [], []⟩ [Arg.flag (js "z") true] =
      some [js "z"] := by
  refine ⟨?_, c8_completion_amended.1 cmdC8b [js "prog"] ⟨[], false⟩,
    c8_completion_amended.2.2.1 ⟨[js "z"], [], []⟩ [Arg.flag (js "z") true] rfl⟩
  exact c8_completion_amended.2.1 cmdC8 [js "prog", js "--verbose", js ""]
    regC8 [js "verbose"] rfl rfl (by decide)

/-- C9: the classification loop is a deterministic relation of the
configuration, and the executable `parseCommandLine` — which builds its own
registry from the schema alone — returns exactly the unique run result:
parsing is a pure function of the pair (schema, token list). -/
theorem c9_parse_deterministic (cmd : Command) (args : List JStr)
    (reg : Registry) (out₁ out₂ : Command × List Arg)
    (hbuild : buildRegistry cmd = .ok reg)
    (h1 : ParseRun reg args cmd 0 [] out₁)
    (h2 : ParseRun reg args cmd 0 [] out₂) :
    out₁ = out₂ ∧ parseCommandLine cmd args = .ok out₁.2 := by
  refine ⟨parseRun_det h1 h2, ?_⟩
  have hrun := parseLoop_run args.length reg args cmd 0 [] (by omega)
  have hfn := parseRun_det h1 hrun
  unfold parseCommandLine
  rw [hbuild]
  dsimp only
  rw [← hfn]

/-- Witness for C9 at the empty schema and empty token list. -/
theorem c9_parse_deterministic_witness :
    ((Command.mk [] [], ([] : List Arg)) = (Command.mk [] [], [])) ∧
    parseCommandLine (Command.mk [] []) [] = .ok ([] : List Arg) :=
  c9_parse_deterministic (Command.mk [] []) [] ⟨[], [], []⟩
    (Command.mk [] [], []) (Command.mk [] [], []) rfl
    (ParseRun.done _ 0 [] rfl) (ParseRun.done _ 0 [] rfl)

/-- C10: from every configuration the classification loop reaches a final
result (a complete run exists — fuel equal to the input length always
suffices), and every classification step leaves the cursor index at least
where the step started it, so each iteration nets at least one token of
progress and the loop ends when the input is exhausted. -/
theorem c10_parse_terminates (reg : Registry) (args : List JStr)
    (cmd : Command) (idx : Nat) (acc : List Arg) :
    (∃ out, ParseRun reg args cmd idx acc out) ∧
    (∀ (cmd' : Command) (arg : JStr) (j : Nat), j ≤ args.length →
      j ≤ (parseArg reg cmd' arg args j).2.2) := by
  refine ⟨⟨parseLoop reg args args.length cmd idx acc,
    parseLoop_run args.length reg args cmd idx acc (by omega)⟩, ?_⟩
  intro cmd' arg j hj
  exact parseArg_le_idx reg cmd' arg args j hj

/-- Witness for C10 at a one-token input. -/
theorem c10_parse_terminates_witness :
    (∃ out, ParseRun ⟨[], [], []⟩ [js "a"] (Command.mk [] []) 0 [] out) ∧
    1 ≤ (parseArg ⟨[], [], []⟩ (Command.mk [] []) (js "a") [js "a"] 1).2.2 := by
  have h := c10_parse_terminates ⟨[], [], []⟩ [js "a"] (Command.mk [] []) 0 []
  exact ⟨h.1, h.2 (Command.mk [] []) (js "a") 1 (by decide)⟩
